import Mathlib

/-!
Verification of the CompatibilityGLEngine scene-graph core.

Shallow embedding of the transform, collision, shadow-matrix and
interaction code over the real numbers (floats are modelled as reals and
"within floating-point tolerance" becomes exact equality over ℝ).
-/

open Real

noncomputable section

open Classical

/-- Three-component vector, mirroring `Vec3` from the source. -/
@[ext]
structure Vec3 where
  x : ℝ
  y : ℝ
  z : ℝ

/-- Degrees-to-radians conversion `deg * (M_PI / 180.0f)` used throughout the source. -/
def degToRad (deg : ℝ) : ℝ := deg * (Real.pi / 180)

/-- X-axis rotation step of `applyRotation` in GameObject.cpp:
`y1 = y cos - z sin; z1 = y sin + z cos; x1 = x`. -/
def rotXstep (a : ℝ) (v : Vec3) : Vec3 :=
  ⟨v.x, v.y * Real.cos a - v.z * Real.sin a, v.y * Real.sin a + v.z * Real.cos a⟩

/-- Y-axis rotation step of `applyRotation`:
`x2 = x1 cos + z1 sin; z2 = -x1 sin + z1 cos; y2 = y1`. -/
def rotYstep (a : ℝ) (v : Vec3) : Vec3 :=
  ⟨v.x * Real.cos a + v.z * Real.sin a, v.y, -v.x * Real.sin a + v.z * Real.cos a⟩

/-- Z-axis rotation step of `applyRotation`:
`x3 = x2 cos - y2 sin; y3 = x2 sin + y2 cos; z3 = z2`. -/
def rotZstep (a : ℝ) (v : Vec3) : Vec3 :=
  ⟨v.x * Real.cos a - v.y * Real.sin a, v.x * Real.sin a + v.y * Real.cos a, v.z⟩

/-- Function `applyRotation` from GameObject.cpp: Euler rotation in X, then Y, then Z order,
angles in degrees. -/
def applyRotation (v rotDeg : Vec3) : Vec3 :=
  rotZstep (degToRad rotDeg.z) (rotYstep (degToRad rotDeg.y) (rotXstep (degToRad rotDeg.x) v))

/-- Function `applyInverseRotation` from GameObject.cpp: Z, then Y, then X, with negated angles. -/
def applyInverseRotation (v rotDeg : Vec3) : Vec3 :=
  rotXstep (-degToRad rotDeg.x) (rotYstep (-degToRad rotDeg.y) (rotZstep (-degToRad rotDeg.z) v))

/-- The transform data every `GameObject` owns: local position, Euler rotation
in degrees, and per-axis scale. -/
structure TNode where
  position : Vec3
  rotation : Vec3
  scale : Vec3

/-- One local step of `getPointInWorldSpace`: apply this node's scale, then its
rotation, then its translation (steps 1-3 of the source). -/
def worldStep (n : TNode) (p : Vec3) : Vec3 :=
  let q := applyRotation ⟨p.x * n.scale.x, p.y * n.scale.y, p.z * n.scale.z⟩ n.rotation
  ⟨q.x + n.position.x, q.y + n.position.y, q.z + n.position.z⟩

/-- One inverse local step of `getPointInLocalSpace`: subtract translation, apply
the inverse rotation, then divide by each scale component whose magnitude
exceeds `0.0001f` (the division is skipped otherwise — steps 2-4 of the source). -/
def localStep (n : TNode) (p : Vec3) : Vec3 :=
  let q := applyInverseRotation
    ⟨p.x - n.position.x, p.y - n.position.y, p.z - n.position.z⟩ n.rotation
  ⟨if |n.scale.x| > 0.0001 then q.x / n.scale.x else q.x,
   if |n.scale.y| > 0.0001 then q.y / n.scale.y else q.y,
   if |n.scale.z| > 0.0001 then q.z / n.scale.z else q.z⟩

/-- Method `GameObject::getPointInWorldSpace` along an explicit parent chain.  The list
is the object's own transform followed by its ancestors up to the root, which
matches the source's recursion: apply the local step, then hand the point to
the parent. -/
def getPointInWorldSpace : List TNode → Vec3 → Vec3
  | [], p => p
  | n :: anc, p => getPointInWorldSpace anc (worldStep n p)

/-- Method `GameObject::getPointInLocalSpace` along the same chain: recurse into the
parent chain first, then undo this node's own transform. -/
def getPointInLocalSpace : List TNode → Vec3 → Vec3
  | [], p => p
  | n :: anc, p => localStep n (getPointInLocalSpace anc p)

-- Cancellation lemmas for the single-axis rotation steps.

theorem rotXstep_cancel (a : ℝ) (v : Vec3) : rotXstep (-a) (rotXstep a v) = v := by
  have h := Real.sin_sq_add_cos_sq a
  ext <;> simp [rotXstep, Real.cos_neg, Real.sin_neg] <;>
    first
      | linear_combination v.x * h
      | linear_combination v.y * h
      | linear_combination v.z * h

theorem rotYstep_cancel (a : ℝ) (v : Vec3) : rotYstep (-a) (rotYstep a v) = v := by
  have h := Real.sin_sq_add_cos_sq a
  ext <;> simp [rotYstep, Real.cos_neg, Real.sin_neg] <;>
    first
      | linear_combination v.x * h
      | linear_combination v.y * h
      | linear_combination v.z * h

theorem rotZstep_cancel (a : ℝ) (v : Vec3) : rotZstep (-a) (rotZstep a v) = v := by
  have h := Real.sin_sq_add_cos_sq a
  ext <;> simp [rotZstep, Real.cos_neg, Real.sin_neg] <;>
    first
      | linear_combination v.x * h
      | linear_combination v.y * h
      | linear_combination v.z * h

/-- `applyInverseRotation` undoes `applyRotation` exactly. -/
theorem applyInverseRotation_applyRotation (v rotDeg : Vec3) :
    applyInverseRotation (applyRotation v rotDeg) rotDeg = v := by
  unfold applyRotation applyInverseRotation
  rw [rotZstep_cancel, rotYstep_cancel, rotXstep_cancel]

/-- A node is scale-regular when every scale component clears the documented
`1e-4` epsilon of `getPointInLocalSpace`. -/
def ScaleRegular (n : TNode) : Prop :=
  |n.scale.x| > 0.0001 ∧ |n.scale.y| > 0.0001 ∧ |n.scale.z| > 0.0001

theorem localStep_worldStep (n : TNode) (p : Vec3) (h : ScaleRegular n) :
    localStep n (worldStep n p) = p := by
  obtain ⟨hx, hy, hz⟩ := h
  have hx0 : n.scale.x ≠ 0 := by intro h0; rw [h0] at hx; simp at hx; linarith
  have hy0 : n.scale.y ≠ 0 := by intro h0; rw [h0] at hy; simp at hy; linarith
  have hz0 : n.scale.z ≠ 0 := by intro h0; rw [h0] at hz; simp at hz; linarith
  unfold localStep worldStep
  have hinv : applyInverseRotation
      (applyRotation ⟨p.x * n.scale.x, p.y * n.scale.y, p.z * n.scale.z⟩ n.rotation)
      n.rotation = ⟨p.x * n.scale.x, p.y * n.scale.y, p.z * n.scale.z⟩ := by
    exact applyInverseRotation_applyRotation _ _
  simp only [add_sub_cancel_right]
  rw [show (⟨(applyRotation ⟨p.x * n.scale.x, p.y * n.scale.y, p.z * n.scale.z⟩
      n.rotation).x, (applyRotation ⟨p.x * n.scale.x, p.y * n.scale.y, p.z * n.scale.z⟩
      n.rotation).y, (applyRotation ⟨p.x * n.scale.x, p.y * n.scale.y, p.z * n.scale.z⟩
      n.rotation).z⟩ : Vec3) = applyRotation
      ⟨p.x * n.scale.x, p.y * n.scale.y, p.z * n.scale.z⟩ n.rotation from rfl]
  rw [hinv]
  ext <;> simp [if_pos hx, if_pos hy, if_pos hz] <;> field_simp

/-- C1: the local/world round trip is the identity along any chain whose scales
all clear the epsilon. -/
theorem getPointInLocalSpace_getPointInWorldSpace (chain : List TNode) (p : Vec3)
    (h : ∀ n ∈ chain, ScaleRegular n) :
    getPointInLocalSpace chain (getPointInWorldSpace chain p) = p := by
  induction chain generalizing p with
  | nil => rfl
  | cons n anc ih =>
      have hn : ScaleRegular n := h n (List.mem_cons_self n anc)
      have hrest : ∀ m ∈ anc, ScaleRegular m := fun m hm => h m (List.mem_cons_of_mem n hm)
      show localStep n (getPointInLocalSpace anc (getPointInWorldSpace anc (worldStep n p))) = p
      rw [ih (worldStep n p) hrest, localStep_worldStep n p hn]

/-- C1: the local/world round trip is the identity on a concrete depth-2 chain. -/
theorem roundTrip_witness :
    (∀ n ∈ ([⟨⟨1, 0, 0⟩, ⟨0, 0, 0⟩, ⟨2, 1, 1⟩⟩,
             ⟨⟨0, 5, 0⟩, ⟨0, 0, 0⟩, ⟨1, 3, 1⟩⟩] : List TNode), ScaleRegular n) ∧
    getPointInLocalSpace
        [⟨⟨1, 0, 0⟩, ⟨0, 0, 0⟩, ⟨2, 1, 1⟩⟩, ⟨⟨0, 5, 0⟩, ⟨0, 0, 0⟩, ⟨1, 3, 1⟩⟩]
        (getPointInWorldSpace
          [⟨⟨1, 0, 0⟩, ⟨0, 0, 0⟩, ⟨2, 1, 1⟩⟩, ⟨⟨0, 5, 0⟩, ⟨0, 0, 0⟩, ⟨1, 3, 1⟩⟩]
          ⟨1, 2, 3⟩) = ⟨1, 2, 3⟩ := by
  have hsc : ∀ n ∈ ([⟨⟨1, 0, 0⟩, ⟨0, 0, 0⟩, ⟨2, 1, 1⟩⟩,
      ⟨⟨0, 5, 0⟩, ⟨0, 0, 0⟩, ⟨1, 3, 1⟩⟩] : List TNode), ScaleRegular n := by
    intro n hn
    simp only [List.mem_cons, List.mem_singleton] at hn
    rcases hn with h | h | h
    · subst h; refine ⟨?_, ?_, ?_⟩ <;> norm_num
    · subst h; refine ⟨?_, ?_, ?_⟩ <;> norm_num
    · cases h
  exact ⟨hsc, getPointInLocalSpace_getPointInWorldSpace _ _ hsc⟩

/-- Method `GameObject::rotateAround`: orbit the object's position about a world-space
pivot `(px, py, pz)` and axis `(ax, ay, az)` by `angle` degrees via the
Rodrigues rotation formula.  An axis of length below `0.0001f` makes the call
return without changing anything; otherwise the axis is normalized, the
position is rotated about the pivot, and `angle * normalizedAxis` is added to
the object's Euler rotation. -/
def rotateAround (o : TNode) (px py pz ax ay az angle : ℝ) : TNode :=
  let rad := angle * (Real.pi / 180)
  let c := Real.cos rad
  let s := Real.sin rad
  let t := 1 - c
  let len := Real.sqrt (ax * ax + ay * ay + az * az)
  if len < 0.0001 then o
  else
    let nax := ax / len
    let nay := ay / len
    let naz := az / len
    let rx := o.position.x - px
    let ry := o.position.y - py
    let rz := o.position.z - pz
    let newX := (t * (nax * rx + nay * ry + naz * rz) * nax) + (c * rx) + (s * (nay * rz - naz * ry))
    let newY := (t * (nax * rx + nay * ry + naz * rz) * nay) + (c * ry) + (s * (naz * rx - nax * rz))
    let newZ := (t * (nax * rx + nay * ry + naz * rz) * naz) + (c * rz) + (s * (nax * ry - nay * rx))
    ⟨⟨px + newX, py + newY, pz + newZ⟩,
     ⟨o.rotation.x + angle * nax, o.rotation.y + angle * nay, o.rotation.z + angle * naz⟩,
     o.scale⟩

/-- Euclidean distance between two points. -/
def dist3 (p q : Vec3) : ℝ :=
  Real.sqrt ((p.x - q.x) ^ 2 + (p.y - q.y) ^ 2 + (p.z - q.z) ^ 2)

/-- The Rodrigues formula preserves the squared norm of the rotated vector when
the axis is unit length and `(c, s)` lies on the unit circle. -/
theorem rodrigues_norm_sq (c s ax ay az rx ry rz : ℝ)
    (hc : s ^ 2 + c ^ 2 = 1) (ha : ax ^ 2 + ay ^ 2 + az ^ 2 = 1) :
    ((1 - c) * (ax * rx + ay * ry + az * rz) * ax + c * rx + s * (ay * rz - az * ry)) ^ 2
      + ((1 - c) * (ax * rx + ay * ry + az * rz) * ay + c * ry + s * (az * rx - ax * rz)) ^ 2
      + ((1 - c) * (ax * rx + ay * ry + az * rz) * az + c * rz + s * (ax * ry - ay * rx)) ^ 2
      = rx ^ 2 + ry ^ 2 + rz ^ 2 := by
  linear_combination
    (((1 - c) ^ 2 * (ax * rx + ay * ry + az * rz) ^ 2
        + s ^ 2 * (rx ^ 2 + ry ^ 2 + rz ^ 2)) * ha
      + ((rx ^ 2 + ry ^ 2 + rz ^ 2) - (ax * rx + ay * ry + az * rz) ^ 2) * hc)

/-- C2: `rotateAround` leaves the distance from the object's position to the
pivot unchanged, and an axis of length below `1e-4` is a complete no-op. -/
theorem rotateAround_dist_pivot (o : TNode) (px py pz ax ay az angle : ℝ) :
    dist3 (rotateAround o px py pz ax ay az angle).position ⟨px, py, pz⟩
        = dist3 o.position ⟨px, py, pz⟩ ∧
      (Real.sqrt (ax * ax + ay * ay + az * az) < 0.0001 →
        rotateAround o px py pz ax ay az angle = o) := by
  by_cases hlen : Real.sqrt (ax * ax + ay * ay + az * az) < 0.0001
  · constructor
    · simp [rotateAround, hlen]
    · intro _; simp [rotateAround, hlen]
  · have hge : (0.0001 : ℝ) ≤ Real.sqrt (ax * ax + ay * ay + az * az) := le_of_not_lt hlen
    have hpos : (0 : ℝ) < Real.sqrt (ax * ax + ay * ay + az * az) := by linarith
    have hne : Real.sqrt (ax * ax + ay * ay + az * az) ≠ 0 := ne_of_gt hpos
    have hmul : Real.sqrt (ax * ax + ay * ay + az * az)
        * Real.sqrt (ax * ax + ay * ay + az * az) = ax * ax + ay * ay + az * az :=
      Real.mul_self_sqrt (by nlinarith [mul_self_nonneg ax, mul_self_nonneg ay, mul_self_nonneg az])
    have ha : (ax / Real.sqrt (ax * ax + ay * ay + az * az)) ^ 2
        + (ay / Real.sqrt (ax * ax + ay * ay + az * az)) ^ 2
        + (az / Real.sqrt (ax * ax + ay * ay + az * az)) ^ 2 = 1 := by
      field_simp
      linear_combination -hmul
    refine ⟨?_, fun h => absurd h hlen⟩
    have hc := Real.sin_sq_add_cos_sq (angle * (Real.pi / 180))
    have hkey := rodrigues_norm_sq (Real.cos (angle * (Real.pi / 180)))
      (Real.sin (angle * (Real.pi / 180)))
      (ax / Real.sqrt (ax * ax + ay * ay + az * az))
      (ay / Real.sqrt (ax * ax + ay * ay + az * az))
      (az / Real.sqrt (ax * ax + ay * ay + az * az))
      (o.position.x - px) (o.position.y - py) (o.position.z - pz) hc ha
    unfold dist3
    simp only [rotateAround, hlen, if_false, if_neg hlen]
    congr 1
    linear_combination hkey

/-- C2 witness: concrete instantiation at the origin-centred position `(3, 4, 0)`
with pivot the origin, axis `(0, 0, 2)` and angle `90`. -/
theorem rotateAround_dist_pivot_witness :
    dist3 (rotateAround ⟨⟨3, 4, 0⟩, ⟨0, 0, 0⟩, ⟨1, 1, 1⟩⟩ 0 0 0 0 0 2 90).position
        ⟨0, 0, 0⟩ = dist3 (⟨3, 4, 0⟩ : Vec3) ⟨0, 0, 0⟩ ∧
      (Real.sqrt ((0 : ℝ) * 0 + 0 * 0 + 2 * 2) < 0.0001 →
        rotateAround ⟨⟨3, 4, 0⟩, ⟨0, 0, 0⟩, ⟨1, 1, 1⟩⟩ 0 0 0 0 0 2 90
          = ⟨⟨3, 4, 0⟩, ⟨0, 0, 0⟩, ⟨1, 1, 1⟩⟩) :=
  rotateAround_dist_pivot ⟨⟨3, 4, 0⟩, ⟨0, 0, 0⟩, ⟨1, 1, 1⟩⟩ 0 0 0 0 0 2 90

/-- Four-component homogeneous vector (light position `fLightPos` / plane `fPlane`
/ transformed point). -/
@[ext]
structure Vec4 where
  x : ℝ
  y : ℝ
  z : ℝ
  w : ℝ

/-- Column-major 4×4 matrix laid out like the `fMatrix[16]` array of main.cpp:
field `mN` is `fMatrix[N]`, so row `r`, column `c` lives in `m(4*c + r)`. -/
structure Mat16 where
  m0 : ℝ
  m1 : ℝ
  m2 : ℝ
  m3 : ℝ
  m4 : ℝ
  m5 : ℝ
  m6 : ℝ
  m7 : ℝ
  m8 : ℝ
  m9 : ℝ
  m10 : ℝ
  m11 : ℝ
  m12 : ℝ
  m13 : ℝ
  m14 : ℝ
  m15 : ℝ

/-- The quantity `dot = fPlane[0]*fLightPos[0] + fPlane[1]*fLightPos[1] + fPlane[2]*fLightPos[2]
+ fPlane[3]*fLightPos[3]` from `buildShadowMatrix`. -/
def planeLightDot (light plane : Vec4) : ℝ :=
  plane.x * light.x + plane.y * light.y + plane.z * light.z + plane.w * light.w

/-- Function `buildShadowMatrix` from main.cpp, entry by entry. -/
def buildShadowMatrix (light plane : Vec4) : Mat16 :=
  let dot := planeLightDot light plane
  { m0 := dot - light.x * plane.x
    m4 := 0 - light.x * plane.y
    m8 := 0 - light.x * plane.z
    m12 := 0 - light.x * plane.w
    m1 := 0 - light.y * plane.x
    m5 := dot - light.y * plane.y
    m9 := 0 - light.y * plane.z
    m13 := 0 - light.y * plane.w
    m2 := 0 - light.z * plane.x
    m6 := 0 - light.z * plane.y
    m10 := dot - light.z * plane.z
    m14 := 0 - light.z * plane.w
    m3 := 0 - light.w * plane.x
    m7 := 0 - light.w * plane.y
    m11 := 0 - light.w * plane.z
    m15 := dot - light.w * plane.w }

/-- Apply a column-major 4×4 matrix to a homogeneous point, the way
`glMultMatrixf` composes the matrix with a vertex. -/
def mulVec4 (m : Mat16) (v : Vec4) : Vec4 :=
  ⟨m.m0 * v.x + m.m4 * v.y + m.m8 * v.z + m.m12 * v.w,
   m.m1 * v.x + m.m5 * v.y + m.m9 * v.z + m.m13 * v.w,
   m.m2 * v.x + m.m6 * v.y + m.m10 * v.z + m.m14 * v.w,
   m.m3 * v.x + m.m7 * v.y + m.m11 * v.z + m.m15 * v.w⟩

/-- Scalar multiple of a homogeneous point. -/
def smul4 (k : ℝ) (v : Vec4) : Vec4 := ⟨k * v.x, k * v.y, k * v.z, k * v.w⟩

/-- Determinant of a 3×3 matrix given row by row. -/
def det3 (a b c d e f g h i : ℝ) : ℝ :=
  a * (e * i - f * h) - b * (d * i - f * g) + c * (d * h - e * g)

/-- Determinant of a column-major 4×4 matrix, by cofactor expansion along the
first row (`a_rc = m(4*c + r)`). -/
def det4 (m : Mat16) : ℝ :=
  m.m0 * det3 m.m5 m.m9 m.m13 m.m6 m.m10 m.m14 m.m7 m.m11 m.m15
    - m.m4 * det3 m.m1 m.m9 m.m13 m.m2 m.m10 m.m14 m.m3 m.m11 m.m15
    + m.m8 * det3 m.m1 m.m5 m.m13 m.m2 m.m6 m.m14 m.m3 m.m7 m.m15
    - m.m12 * det3 m.m1 m.m5 m.m9 m.m2 m.m6 m.m10 m.m3 m.m7 m.m11

/-- C3 counterexample: with light `(0, 2, 0, 0)` and plane `(0, 1, 0, 0)`
(`dot = 2`), applying the shadow matrix twice to the point `(1, 0, 0, 1)` does
not give the same 4-vector as applying it once, so the matrix is not
idempotent as the claim states. -/
theorem buildShadowMatrix_not_idempotent :
    ¬ (mulVec4 (buildShadowMatrix ⟨0, 2, 0, 0⟩ ⟨0, 1, 0, 0⟩)
        (mulVec4 (buildShadowMatrix ⟨0, 2, 0, 0⟩ ⟨0, 1, 0, 0⟩) ⟨1, 0, 0, 1⟩)
      = mulVec4 (buildShadowMatrix ⟨0, 2, 0, 0⟩ ⟨0, 1, 0, 0⟩) ⟨1, 0, 0, 1⟩) := by
  intro h
  have hx := congrArg Vec4.x h
  simp only [mulVec4, buildShadowMatrix, planeLightDot] at hx
  norm_num at hx

/-- C3 amended: for every light vector and plane, the shadow matrix is singular
(determinant exactly 0), and applying it twice to a point equals `dot` times
applying it once — the same point in homogeneous coordinates, and literal
idempotence exactly in the `dot = 1` case used by the engine. -/
theorem buildShadowMatrix_singular_and_projective (light plane p : Vec4) :
    det4 (buildShadowMatrix light plane) = 0 ∧
      mulVec4 (buildShadowMatrix light plane) (mulVec4 (buildShadowMatrix light plane) p)
        = smul4 (planeLightDot light plane) (mulVec4 (buildShadowMatrix light plane) p) := by
  constructor
  · simp only [det4, det3, buildShadowMatrix, planeLightDot]
    ring
  · ext <;> simp only [mulVec4, smul4, buildShadowMatrix, planeLightDot] <;> ring

/-- Constant `PLAYER_RADIUS` from main.cpp. -/
def PLAYER_RADIUS : ℝ := 0.3

/-- Constant `PLAYER_HEIGHT` from main.cpp. -/
def PLAYER_HEIGHT : ℝ := 1.5

/-- Function `isOverlap` from main.cpp on a box given by its own transform `box`, its
ancestor chain `anc`, and its stored `width`/`height`/`depth`.  The query point
is transformed into the box's local frame; the player's radius and height are
scaled by the reciprocals of the box's own scale components (components of
magnitude at most `0.001f` contribute a factor of 1), the radius using the
larger of the X and Z factors; then the inflated X/Z bounds are checked and
the vertical span `[localY - localHeight, localY]` is tested against
`[-hh, hh]`.  The three conjuncts are the negations of the two early-return
rejections followed by the accepting test. -/
def isOverlap (box : TNode) (anc : List TNode) (width height depth px py pz : ℝ) : Prop :=
  let localPos := getPointInLocalSpace (box :: anc) ⟨px, py, pz⟩
  let hw := width / 2
  let hh := height / 2
  let hd := depth / 2
  let sx := if |box.scale.x| > 0.001 then 1 / box.scale.x else 1
  let sy := if |box.scale.y| > 0.001 then 1 / box.scale.y else 1
  let sz := if |box.scale.z| > 0.001 then 1 / box.scale.z else 1
  let localRadius := PLAYER_RADIUS * max |sx| |sz|
  let localHeight := PLAYER_HEIGHT * |sy|
  ¬(localPos.x < -hw - localRadius ∨ localPos.x > hw + localRadius) ∧
    ¬(localPos.z < -hd - localRadius ∨ localPos.z > hd + localRadius) ∧
    (localPos.y - localHeight < hh ∧ localPos.y > -hh)

/-- C5: for a box at the origin with dimensions `(2, 2, 2)`, no rotation and
unit scale, the overlap test accepts the query point `(0.5, 1, 0)` and rejects
`(5, 1, 0)` (player radius 0.3, height 1.5). -/
theorem isOverlap_scenario :
    isOverlap ⟨⟨0, 0, 0⟩, ⟨0, 0, 0⟩, ⟨1, 1, 1⟩⟩ [] 2 2 2 0.5 1 0 ∧
      ¬ isOverlap ⟨⟨0, 0, 0⟩, ⟨0, 0, 0⟩, ⟨1, 1, 1⟩⟩ [] 2 2 2 5 1 0 := by
  constructor
  · simp only [isOverlap, getPointInLocalSpace, localStep, applyInverseRotation,
      rotXstep, rotYstep, rotZstep, degToRad, PLAYER_RADIUS, PLAYER_HEIGHT]
    norm_num
  · simp only [isOverlap, getPointInLocalSpace, localStep, applyInverseRotation,
      rotXstep, rotYstep, rotZstep, degToRad, PLAYER_RADIUS, PLAYER_HEIGHT]
    norm_num

/-- Componentwise product of the scale components along a chain, innermost
node first — the "composed world scale" the C4 claim speaks about.  Modelled
from the spec: the code has no such accessor. -/
def worldScale : List TNode → Vec3
  | [] => ⟨1, 1, 1⟩
  | n :: anc =>
      let ws := worldScale anc
      ⟨n.scale.x * ws.x, n.scale.y * ws.y, n.scale.z * ws.z⟩

/-- The C4 claim's reading of the overlap test, modelled from the spec's words:
the player's radius and height are divided by the box's composed world scale
(the whole parent chain), with the same `1e-4` near-zero guard as
`getPointInLocalSpace`. -/
def isOverlapWorldScale (box : TNode) (anc : List TNode)
    (width height depth px py pz : ℝ) : Prop :=
  let localPos := getPointInLocalSpace (box :: anc) ⟨px, py, pz⟩
  let hw := width / 2
  let hh := height / 2
  let hd := depth / 2
  let ws := worldScale (box :: anc)
  let sx := if |ws.x| > 0.0001 then 1 / ws.x else 1
  let sy := if |ws.y| > 0.0001 then 1 / ws.y else 1
  let sz := if |ws.z| > 0.0001 then 1 / ws.z else 1
  let localRadius := PLAYER_RADIUS * max |sx| |sz|
  let localHeight := PLAYER_HEIGHT * |sy|
  ¬(localPos.x < -hw - localRadius ∨ localPos.x > hw + localRadius) ∧
    ¬(localPos.z < -hd - localRadius ∨ localPos.z > hd + localRadius) ∧
    (localPos.y - localHeight < hh ∧ localPos.y > -hh)

/-- C4 counterexample: a unit-scale box of dimensions `(2, 2, 2)` nested in a
parent of scale `(3, 1, 3)`, queried at `(3.4, 0.5, 0)`.  The code divides the
player's radius by the box's own (unit) scale and accepts; dividing by the
composed world scale as the claim states would shrink the inflation to 0.1 and
reject.  So the claim's description of `isOverlap` is false. -/
theorem isOverlap_uses_local_scale_only :
    ¬ (isOverlap ⟨⟨0, 0, 0⟩, ⟨0, 0, 0⟩, ⟨1, 1, 1⟩⟩ [⟨⟨0, 0, 0⟩, ⟨0, 0, 0⟩, ⟨3, 1, 3⟩⟩]
          2 2 2 3.4 0.5 0
        ↔ isOverlapWorldScale ⟨⟨0, 0, 0⟩, ⟨0, 0, 0⟩, ⟨1, 1, 1⟩⟩
          [⟨⟨0, 0, 0⟩, ⟨0, 0, 0⟩, ⟨3, 1, 3⟩⟩] 2 2 2 3.4 0.5 0) := by
  intro h
  have hcode : isOverlap ⟨⟨0, 0, 0⟩, ⟨0, 0, 0⟩, ⟨1, 1, 1⟩⟩
      [⟨⟨0, 0, 0⟩, ⟨0, 0, 0⟩, ⟨3, 1, 3⟩⟩] 2 2 2 3.4 0.5 0 := by
    simp only [isOverlap, getPointInLocalSpace, localStep, applyInverseRotation,
      rotXstep, rotYstep, rotZstep, degToRad, PLAYER_RADIUS, PLAYER_HEIGHT]
    norm_num
  have hspec := h.mp hcode
  simp only [isOverlapWorldScale, worldScale, getPointInLocalSpace, localStep,
    applyInverseRotation, rotXstep, rotYstep, rotZstep, degToRad,
    PLAYER_RADIUS, PLAYER_HEIGHT] at hspec
  norm_num at hspec
  rw [show |(1 : ℝ) / 3| = 1 / 3 from abs_of_pos (by norm_num)] at hspec
  norm_num at hspec

/-- The amended C4 reading of the overlap test: the radius and height are
divided by the box's own local scale components only, under a guard that
treats components of magnitude at most `0.001` (not the `1e-4` of the
local-point conversion) as 1, and the radius takes the larger of the absolute
scaled X and Z factors; written as interval bounds on the transformed point. -/
def isOverlapLocalScaleSpec (box : TNode) (anc : List TNode)
    (width height depth px py pz : ℝ) : Prop :=
  let localPos := getPointInLocalSpace (box :: anc) ⟨px, py, pz⟩
  let invGuard : ℝ → ℝ := fun c => if |c| > 0.001 then 1 / c else 1
  let localRadius := PLAYER_RADIUS * max |invGuard box.scale.x| |invGuard box.scale.z|
  let localHeight := PLAYER_HEIGHT * |invGuard box.scale.y|
  (-(width / 2) - localRadius ≤ localPos.x ∧ localPos.x ≤ width / 2 + localRadius) ∧
    (-(depth / 2) - localRadius ≤ localPos.z ∧ localPos.z ≤ depth / 2 + localRadius) ∧
    (localPos.y - localHeight < height / 2 ∧ -(height / 2) < localPos.y)

/-- C4 amended: `isOverlap` agrees everywhere with the local-scale reading
above, and ancestors influence the test only through the transformed query
point — chains that transform the point identically give identical verdicts,
so no composed world scale enters the radius and height conversion. -/
theorem isOverlap_localScale_char (box : TNode) (anc anc' : List TNode)
    (width height depth px py pz : ℝ)
    (hpt : getPointInLocalSpace (box :: anc) ⟨px, py, pz⟩
      = getPointInLocalSpace (box :: anc') ⟨px, py, pz⟩) :
    (isOverlap box anc width height depth px py pz
        ↔ isOverlapLocalScaleSpec box anc width height depth px py pz) ∧
      (isOverlap box anc width height depth px py pz
        ↔ isOverlap box anc' width height depth px py pz) := by
  constructor
  · unfold isOverlap isOverlapLocalScaleSpec
    constructor
    · rintro ⟨h1, h2, h3⟩
      push_neg at h1 h2
      exact ⟨⟨by linarith [h1.1], by linarith [h1.2]⟩,
        ⟨by linarith [h2.1], by linarith [h2.2]⟩, h3.1, h3.2⟩
    · rintro ⟨h1, h2, h3⟩
      refine ⟨?_, ?_, h3.1, h3.2⟩ <;> push_neg <;>
        exact ⟨by linarith [h1.1, h2.1], by linarith [h1.2, h2.2]⟩
  · unfold isOverlap
    rw [hpt]

/-- C4 amended, witness: the characterisation applied to the concrete box of
the counterexample with `anc` the singleton identity chain and `anc'` empty —
both transform the query point `(0.5, 1, 0)` identically. -/
theorem isOverlap_localScale_char_witness :
    (getPointInLocalSpace [⟨⟨0, 0, 0⟩, ⟨0, 0, 0⟩, ⟨1, 1, 1⟩⟩,
          ⟨⟨0, 0, 0⟩, ⟨0, 0, 0⟩, ⟨1, 1, 1⟩⟩] ⟨0.5, 1, 0⟩
        = getPointInLocalSpace [⟨⟨0, 0, 0⟩, ⟨0, 0, 0⟩, ⟨1, 1, 1⟩⟩] ⟨0.5, 1, 0⟩) ∧
      ((isOverlap ⟨⟨0, 0, 0⟩, ⟨0, 0, 0⟩, ⟨1, 1, 1⟩⟩ [⟨⟨0, 0, 0⟩, ⟨0, 0, 0⟩, ⟨1, 1, 1⟩⟩]
            2 2 2 0.5 1 0
          ↔ isOverlapLocalScaleSpec ⟨⟨0, 0, 0⟩, ⟨0, 0, 0⟩, ⟨1, 1, 1⟩⟩
            [⟨⟨0, 0, 0⟩, ⟨0, 0, 0⟩, ⟨1, 1, 1⟩⟩] 2 2 2 0.5 1 0) ∧
        (isOverlap ⟨⟨0, 0, 0⟩, ⟨0, 0, 0⟩, ⟨1, 1, 1⟩⟩ [⟨⟨0, 0, 0⟩, ⟨0, 0, 0⟩, ⟨1, 1, 1⟩⟩]
            2 2 2 0.5 1 0
          ↔ isOverlap ⟨⟨0, 0, 0⟩, ⟨0, 0, 0⟩, ⟨1, 1, 1⟩⟩ [] 2 2 2 0.5 1 0)) := by
  have hpt : getPointInLocalSpace [⟨⟨0, 0, 0⟩, ⟨0, 0, 0⟩, ⟨1, 1, 1⟩⟩,
      ⟨⟨0, 0, 0⟩, ⟨0, 0, 0⟩, ⟨1, 1, 1⟩⟩] (⟨0.5, 1, 0⟩ : Vec3)
      = getPointInLocalSpace [⟨⟨0, 0, 0⟩, ⟨0, 0, 0⟩, ⟨1, 1, 1⟩⟩] ⟨0.5, 1, 0⟩ := by
    simp only [getPointInLocalSpace, localStep, applyInverseRotation,
      rotXstep, rotYstep, rotZstep, degToRad]
    norm_num
  exact ⟨hpt, isOverlap_localScale_char _ _ _ 2 2 2 0.5 1 0 hpt⟩

/-- Translate the root of a parent chain (its last element; the box itself when
it has no ancestors) by `(vx, vy, vz)`, leaving every other transform alone. -/
def translateRoot : List TNode → ℝ → ℝ → ℝ → List TNode
  | [], _, _, _ => []
  | [n], vx, vy, vz =>
      [⟨⟨n.position.x + vx, n.position.y + vy, n.position.z + vz⟩, n.rotation, n.scale⟩]
  | n :: m :: anc, vx, vy, vz => n :: translateRoot (m :: anc) vx vy vz

theorem localStep_translate (n : TNode) (q : Vec3) (vx vy vz : ℝ) :
    localStep ⟨⟨n.position.x + vx, n.position.y + vy, n.position.z + vz⟩, n.rotation, n.scale⟩
        ⟨q.x + vx, q.y + vy, q.z + vz⟩ = localStep n q := by
  unfold localStep
  have harg : (⟨q.x + vx - (n.position.x + vx), q.y + vy - (n.position.y + vy),
      q.z + vz - (n.position.z + vz)⟩ : Vec3)
      = ⟨q.x - n.position.x, q.y - n.position.y, q.z - n.position.z⟩ := by
    ext <;> ring
  simp only
  rw [harg]

theorem getPointInLocalSpace_translateRoot (anc : List TNode) (box : TNode)
    (px py pz vx vy vz : ℝ) :
    getPointInLocalSpace (translateRoot (box :: anc) vx vy vz)
        ⟨px + vx, py + vy, pz + vz⟩
      = getPointInLocalSpace (box :: anc) ⟨px, py, pz⟩ := by
  induction anc generalizing box px py pz with
  | nil =>
      show localStep _ _ = localStep box ⟨px, py, pz⟩
      exact localStep_translate box ⟨px, py, pz⟩ vx vy vz
  | cons m anc ih =>
      show localStep box (getPointInLocalSpace (translateRoot (m :: anc) vx vy vz)
          ⟨px + vx, py + vy, pz + vz⟩)
        = localStep box (getPointInLocalSpace (m :: anc) ⟨px, py, pz⟩)
      rw [ih m px py pz]

/-- The head of a root-translated chain keeps its scale. -/
theorem translateRoot_head_scale (box : TNode) (anc : List TNode) (vx vy vz : ℝ) :
    ∀ b' anc', translateRoot (box :: anc) vx vy vz = b' :: anc' → b'.scale = box.scale := by
  cases anc with
  | nil => intro b' anc' h; injection h with h1 _; rw [← h1]
  | cons m rest => intro b' anc' h; injection h with h1 _; rw [← h1]

/-- C8: the overlap test is invariant under translating the root of the box's
parent chain and the query point by the same vector. -/
theorem isOverlap_translation_invariant (box : TNode) (anc : List TNode)
    (width height depth px py pz vx vy vz : ℝ) :
    (match translateRoot (box :: anc) vx vy vz with
      | [] => False
      | b' :: anc' =>
          isOverlap b' anc' width height depth (px + vx) (py + vy) (pz + vz))
      ↔ isOverlap box anc width height depth px py pz := by
  cases anc with
  | nil =>
      show isOverlap ⟨⟨box.position.x + vx, box.position.y + vy, box.position.z + vz⟩,
          box.rotation, box.scale⟩ [] width height depth (px + vx) (py + vy) (pz + vz)
        ↔ isOverlap box [] width height depth px py pz
      unfold isOverlap
      rw [show getPointInLocalSpace [⟨⟨box.position.x + vx, box.position.y + vy,
          box.position.z + vz⟩, box.rotation, box.scale⟩] ⟨px + vx, py + vy, pz + vz⟩
        = getPointInLocalSpace [box] ⟨px, py, pz⟩ from
        getPointInLocalSpace_translateRoot [] box px py pz vx vy vz]
  | cons m rest =>
      show isOverlap box (translateRoot (m :: rest) vx vy vz) width height depth
          (px + vx) (py + vy) (pz + vz)
        ↔ isOverlap box (m :: rest) width height depth px py pz
      unfold isOverlap
      rw [show getPointInLocalSpace (box :: translateRoot (m :: rest) vx vy vz)
          ⟨px + vx, py + vy, pz + vz⟩
        = getPointInLocalSpace (box :: m :: rest) ⟨px, py, pz⟩ from
        getPointInLocalSpace_translateRoot (m :: rest) box px py pz vx vy vz]

/-- Method `GameObject::interact` along an explicit parent chain.  Each element of the
chain is that node's optional `interactAction` (handlers identified by a
number), the head being the node the call starts on.  The result is the list
of handlers that run: the node's own handler if present, otherwise the call is
forwarded to the parent, and nothing runs when no ancestor owns a handler. -/
def interact : List (Option ℕ) → List ℕ
  | [] => []
  | some h :: _ => [h]
  | none :: ancestors => interact ancestors

/-- C6: in a 3-level chain root→mid→leaf where only the root has a handler,
`interact()` on the leaf runs the root's handler exactly once and nothing
else; in general the node's own handler wins when present, an unhandled call
bubbles to the parent, and a chain with no handler at all runs nothing. -/
theorem interact_bubbling :
    (∀ rootHandler : ℕ, interact [none, none, some rootHandler] = [rootHandler]) ∧
      (∀ (h : ℕ) (ancestors : List (Option ℕ)), interact (some h :: ancestors) = [h]) ∧
      (∀ ancestors : List (Option ℕ), interact (none :: ancestors) = interact ancestors) ∧
      (∀ chain : List (Option ℕ), (∀ a ∈ chain, a = none) → interact chain = []) := by
  refine ⟨fun _ => rfl, fun _ _ => rfl, fun _ => rfl, ?_⟩
  intro chain hnone
  induction chain with
  | nil => rfl
  | cons a rest ih =>
      have ha : a = none := hnone a (List.mem_cons_self a rest)
      subst ha
      exact ih (fun b hb => hnone b (List.mem_cons_of_mem none hb))

/-- C6 witness: the all-`none` hypothesis discharged on the concrete 3-level
chain with no handlers anywhere. -/
theorem interact_bubbling_witness :
    interact [(none : Option ℕ), none, none] = [] ∧ interact [none, none, some 7] = [7] := by
  constructor
  · exact interact_bubbling.2.2.2 [none, none, none] (by intro a ha; simpa using ha)
  · exact interact_bubbling.1 7

/-- The material state of a `GameObject`; only its identity matters to the
clone claims, so it is represented by its alpha channel. -/
structure Material where
  alpha : ℝ

/-- The per-object state every `GameObject` carries: transform, material,
shadow flag and the two optional callbacks (identified by numbers, mirroring
the `std::function` slots `updateAction` and `interactAction`). -/
structure GOProps where
  position : Vec3
  rotation : Vec3
  scale : Vec3
  material : Material
  castsShadow : Bool
  updateAction : Option ℕ
  interactAction : Option ℕ

/-- A scene-graph object: a leaf primitive (`Cube` standing in for all
copy-constructed leaves) or a `Container` with an ordered child list. -/
inductive GObj where
  | cube (props : GOProps)
  | container (props : GOProps) (children : List GObj)

/-- Deep copy (`clone`) of the scene graph.  `Cube::clone` copy-constructs, so it returns
an identical leaf, callbacks included.  `Container::clone` builds a fresh
`Container` (whose callbacks are the default `nullptr`), copies position,
rotation, scale, material and `castsShadow`, and deep-clones the children in
order. -/
def GObj.clone : GObj → GObj
  | .cube p => .cube p
  | .container p cs =>
      .container ⟨p.position, p.rotation, p.scale, p.material, p.castsShadow, none, none⟩
        (cs.attach.map fun c => GObj.clone c.1)
decreasing_by
  have := List.sizeOf_lt_of_mem c.2
  simp only [GObj.container.sizeOf_spec]
  omega

theorem GObj_clone_attach (cs : List GObj) :
    cs.attach.map (fun c => GObj.clone c.1) = cs.map GObj.clone := by
  rw [List.attach_map_val]

/-- C9: `Container::clone` copies the transform, material and shadow flag and
deep-clones the children in insertion order, but the clone's update and
interact callbacks are the defaults — `none` — whatever the original carried;
`Cube::clone` copy-constructs, so a cloned cube keeps both callbacks. -/
theorem clone_callbacks (p : GOProps) (cs : List GObj) :
    GObj.clone (.container p cs)
        = .container ⟨p.position, p.rotation, p.scale, p.material, p.castsShadow, none, none⟩
          (cs.map GObj.clone) ∧
      GObj.clone (.cube p) = .cube p := by
  constructor
  · rw [GObj.clone, GObj_clone_attach]
  · rw [GObj.clone]

/-- A scene-graph node as the raycast sees it: a `Container` (only recursed
into) or a leaf object, identified by a number standing in for its pointer. -/
inductive SceneNode where
  | leaf (id : ℕ) (t : TNode)
  | group (t : TNode) (children : List SceneNode)

/-- The `closestDist` / `closestObj` reference pair threaded through
`findClosestObject`. -/
structure RayHit where
  closestDist : ℝ
  closestObj : Option ℕ

mutual

/-- Function `findClosestObject` from main.cpp.  A container recurses into its children
(each child's ancestor chain gains the container); a leaf computes its real
position, the closest-approach parameter `t` of the ray `cam + t·dir`, and —
when `t` is positive and beats the current best — the squared miss-distance,
accepting the leaf when that is below `1.5f * 1.5f`. -/
def findClosestObject (cam dir : Vec3) (node : SceneNode) (anc : List TNode)
    (st : RayHit) : RayHit :=
  match node with
  | .group t cs => findClosestList cam dir cs (t :: anc) st
  | .leaf i t =>
      let pos := getPointInWorldSpace anc t.position
      let tp := (pos.x - cam.x) * dir.x + (pos.y - cam.y) * dir.y + (pos.z - cam.z) * dir.z
      if tp > 0 ∧ tp < st.closestDist then
        if (pos.x - (cam.x + tp * dir.x)) ^ 2 + (pos.y - (cam.y + tp * dir.y)) ^ 2
            + (pos.z - (cam.z + tp * dir.z)) ^ 2 < 1.5 * 1.5 then
          ⟨tp, some i⟩
        else st
      else st
termination_by sizeOf node

/-- The `for (auto* child : container->getChildren())` loop of
`findClosestObject`, threading the hit state left to right. -/
def findClosestList (cam dir : Vec3) (cs : List SceneNode) (anc : List TNode)
    (st : RayHit) : RayHit :=
  match cs with
  | [] => st
  | c :: rest => findClosestList cam dir rest anc (findClosestObject cam dir c anc st)
termination_by sizeOf cs

end

mutual

/-- The raycast data of every leaf under a node, in traversal order: its id,
its closest-approach parameter and its squared miss-distance. -/
def leafData (cam dir : Vec3) (node : SceneNode) (anc : List TNode) :
    List (ℕ × ℝ × ℝ) :=
  match node with
  | .group t cs => leafDataList cam dir cs (t :: anc)
  | .leaf i t =>
      let pos := getPointInWorldSpace anc t.position
      let tp := (pos.x - cam.x) * dir.x + (pos.y - cam.y) * dir.y + (pos.z - cam.z) * dir.z
      [(i, tp, (pos.x - (cam.x + tp * dir.x)) ^ 2 + (pos.y - (cam.y + tp * dir.y)) ^ 2
          + (pos.z - (cam.z + tp * dir.z)) ^ 2)]
termination_by sizeOf node

def leafDataList (cam dir : Vec3) (cs : List SceneNode) (anc : List TNode) :
    List (ℕ × ℝ × ℝ) :=
  match cs with
  | [] => []
  | c :: rest => leafData cam dir c anc ++ leafDataList cam dir rest anc
termination_by sizeOf cs

end

/-- The leaf-by-leaf hit-state scan that `findClosestObject` performs, as a
fold over the flattened leaf data. -/
def selScan : List (ℕ × ℝ × ℝ) → RayHit → RayHit
  | [], st => st
  | (i, tp, dsq) :: rest, st =>
      selScan rest
        (if tp > 0 ∧ tp < st.closestDist then
          (if dsq < 1.5 * 1.5 then ⟨tp, some i⟩ else st)
        else st)

theorem selScan_append (l1 l2 : List (ℕ × ℝ × ℝ)) (st : RayHit) :
    selScan (l1 ++ l2) st = selScan l2 (selScan l1 st) := by
  induction l1 generalizing st with
  | nil => rfl
  | cons e rest ih => cases e with | mk i q => cases q with | mk tp dsq => simp [selScan, ih]

mutual

theorem findClosestObject_eq_selScan (cam dir : Vec3) (node : SceneNode)
    (anc : List TNode) (st : RayHit) :
    findClosestObject cam dir node anc st = selScan (leafData cam dir node anc) st := by
  cases node with
  | leaf i t => rw [findClosestObject, leafData]; rfl
  | group t cs =>
      rw [findClosestObject, leafData]
      exact findClosestList_eq_selScan cam dir cs (t :: anc) st
termination_by sizeOf node

theorem findClosestList_eq_selScan (cam dir : Vec3) (cs : List SceneNode)
    (anc : List TNode) (st : RayHit) :
    findClosestList cam dir cs anc st = selScan (leafDataList cam dir cs anc) st := by
  cases cs with
  | nil => rw [findClosestList, leafDataList]; rfl
  | cons c rest =>
      rw [findClosestList, leafDataList, selScan_append,
        ← findClosestObject_eq_selScan cam dir c anc st]
      exact findClosestList_eq_selScan cam dir rest anc (findClosestObject cam dir c anc st)
termination_by sizeOf cs

end

theorem selScan_dist_le (l : List (ℕ × ℝ × ℝ)) (st : RayHit) :
    (selScan l st).closestDist ≤ st.closestDist := by
  induction l generalizing st with
  | nil => exact le_refl _
  | cons e rest ih =>
      obtain ⟨i, tp, dsq⟩ := e
      simp only [selScan]
      split_ifs with h1 h2
      · exact le_trans (ih _) (le_of_lt h1.2)
      · exact ih st
      · exact ih st

theorem selScan_provenance (l : List (ℕ × ℝ × ℝ)) (st : RayHit) :
    selScan l st = st ∨ ∃ i tp dsq, (i, tp, dsq) ∈ l ∧ tp > 0 ∧ dsq < 1.5 * 1.5 ∧
      tp < st.closestDist ∧ selScan l st = ⟨tp, some i⟩ := by
  induction l generalizing st with
  | nil => exact Or.inl rfl
  | cons e rest ih =>
      obtain ⟨i, tp, dsq⟩ := e
      simp only [selScan]
      split_ifs with h1 h2
      · rcases ih ⟨tp, some i⟩ with h | ⟨j, tq, dq, hmem, hq1, hq2, hq3, heq⟩
        · exact Or.inr ⟨i, tp, dsq, List.mem_cons_self _ _, h1.1, h2, h1.2, h⟩
        · exact Or.inr ⟨j, tq, dq, List.mem_cons_of_mem _ hmem, hq1, hq2,
            lt_trans hq3 h1.2, heq⟩
      · rcases ih st with h | ⟨j, tq, dq, hmem, hq1, hq2, hq3, heq⟩
        · exact Or.inl h
        · exact Or.inr ⟨j, tq, dq, List.mem_cons_of_mem _ hmem, hq1, hq2, hq3, heq⟩
      · rcases ih st with h | ⟨j, tq, dq, hmem, hq1, hq2, hq3, heq⟩
        · exact Or.inl h
        · exact Or.inr ⟨j, tq, dq, List.mem_cons_of_mem _ hmem, hq1, hq2, hq3, heq⟩

theorem selScan_min (l : List (ℕ × ℝ × ℝ)) (st : RayHit) :
    ∀ i tp dsq, (i, tp, dsq) ∈ l → tp > 0 → dsq < 1.5 * 1.5 →
      (selScan l st).closestDist ≤ tp := by
  induction l generalizing st with
  | nil => intro _ _ _ h; cases h
  | cons e rest ih =>
      obtain ⟨j, tq, dq⟩ := e
      intro i tp dsq hmem hp hd
      simp only [selScan]
      rcases List.mem_cons.mp hmem with heq | hmem'
      · have hi : j = i := (congrArg Prod.fst heq).symm
        have ht : tq = tp := (congrArg (fun p : ℕ × ℝ × ℝ => p.2.1) heq).symm
        have hq : dq = dsq := (congrArg (fun p : ℕ × ℝ × ℝ => p.2.2) heq).symm
        rw [hi, ht, hq]
        split_ifs with h1
        · exact selScan_dist_le rest _
        · have hge : st.closestDist ≤ tp := by
            by_contra hlt
            exact h1 ⟨hp, lt_of_not_le hlt⟩
          exact le_trans (selScan_dist_le rest st) hge
      · split_ifs with h1 h2
        · exact ih _ i tp dsq hmem' hp hd
        · exact ih st i tp dsq hmem' hp hd
        · exact ih st i tp dsq hmem' hp hd

theorem selScan_keeps_some (l : List (ℕ × ℝ × ℝ)) (st : RayHit) (j : ℕ)
    (h : st.closestObj = some j) : ∃ k, (selScan l st).closestObj = some k := by
  induction l generalizing st j with
  | nil => exact ⟨j, h⟩
  | cons e rest ih =>
      obtain ⟨i, tp, dsq⟩ := e
      simp only [selScan]
      split_ifs with h1 h2
      · exact ih ⟨tp, some i⟩ i rfl
      · exact ih st j h
      · exact ih st j h

theorem selScan_hit_of_qualifying (l : List (ℕ × ℝ × ℝ)) (st : RayHit) :
    (∃ i tp dsq, (i, tp, dsq) ∈ l ∧ tp > 0 ∧ dsq < 1.5 * 1.5 ∧ tp < st.closestDist) →
      ∃ k, (selScan l st).closestObj = some k := by
  induction l generalizing st with
  | nil => rintro ⟨_, _, _, h, _⟩; cases h
  | cons e rest ih =>
      obtain ⟨j, tq, dq⟩ := e
      rintro ⟨i, tp, dsq, hmem, h1, h2, h3⟩
      simp only [selScan]
      rcases List.mem_cons.mp hmem with heq | hmem'
      · have hi : j = i := (congrArg Prod.fst heq).symm
        have ht : tq = tp := (congrArg (fun p : ℕ × ℝ × ℝ => p.2.1) heq).symm
        have hq : dq = dsq := (congrArg (fun p : ℕ × ℝ × ℝ => p.2.2) heq).symm
        rw [hi, ht, hq, if_pos ⟨h1, h3⟩, if_pos h2]
        exact selScan_keeps_some rest _ i rfl
      · split_ifs with hc1 hc2
        · exact selScan_keeps_some rest _ j rfl
        · exact ih st ⟨i, tp, dsq, hmem', h1, h2, h3⟩
        · exact ih st ⟨i, tp, dsq, hmem', h1, h2, h3⟩

/-- Function `checkInteraction` from main.cpp, on an already-normalized ray: the hit
state starts at `closestDist = 10` with no object, every root is scanned, and
the returned id (the pointer `closestObj` in the source) is the object whose
`interact()` is then invoked — `none` models "no interact() call is made". -/
def checkInteraction (cam dir : Vec3) (roots : List SceneNode) : Option ℕ :=
  (findClosestList cam dir roots [] ⟨10, none⟩).closestObj

/-- C7: whenever the interaction raycast selects a node, that node is a leaf
whose closest-approach parameter is positive, whose squared miss-distance is
below `1.5²`, and whose parameter is a global minimum over every qualifying
leaf of the whole scene — independent of where the leaf sits in the traversal
order; and whenever some leaf qualifies within the initial best distance, a
node is selected. -/
theorem checkInteraction_global_min (cam dir : Vec3) (roots : List SceneNode) :
    (∀ i, checkInteraction cam dir roots = some i →
        ∃ tp dsq, (i, tp, dsq) ∈ leafDataList cam dir roots [] ∧ tp > 0 ∧ dsq < 1.5 * 1.5 ∧
          ∀ j tq dq, (j, tq, dq) ∈ leafDataList cam dir roots [] → tq > 0 → dq < 1.5 * 1.5 →
            tp ≤ tq) ∧
      ((∃ i tp dsq, (i, tp, dsq) ∈ leafDataList cam dir roots [] ∧ tp > 0 ∧
          dsq < 1.5 * 1.5 ∧ tp < 10) →
        ∃ k, checkInteraction cam dir roots = some k) := by
  constructor
  · intro i hsel
    unfold checkInteraction at hsel
    rw [findClosestList_eq_selScan] at hsel
    rcases selScan_provenance (leafDataList cam dir roots []) ⟨10, none⟩ with
      h | ⟨j, tp, dsq, hmem, h1, h2, _, heq⟩
    · rw [h] at hsel; cases hsel
    · rw [heq] at hsel
      obtain rfl : j = i := Option.some.inj hsel
      refine ⟨tp, dsq, hmem, h1, h2, ?_⟩
      intro j' tq dq hm hq hd
      have hmin := selScan_min (leafDataList cam dir roots []) ⟨10, none⟩ j' tq dq hm hq hd
      rw [heq] at hmin
      exact hmin
  · rintro ⟨i, tp, dsq, hmem, h1, h2, h3⟩
    unfold checkInteraction
    rw [findClosestList_eq_selScan]
    exact selScan_hit_of_qualifying (leafDataList cam dir roots []) ⟨10, none⟩
      ⟨i, tp, dsq, hmem, h1, h2, h3⟩

/-- C7 witness: a single leaf 3 units straight down the ray is selected, and
the global-minimum property holds for it. -/
theorem checkInteraction_global_min_witness :
    ∃ tp dsq, (1, tp, dsq) ∈ leafDataList ⟨0, 0, 0⟩ ⟨0, 0, -1⟩
        [.leaf 1 ⟨⟨0, 0, -3⟩, ⟨0, 0, 0⟩, ⟨1, 1, 1⟩⟩] [] ∧ tp > 0 ∧ dsq < 1.5 * 1.5 ∧
      ∀ j tq dq, (j, tq, dq) ∈ leafDataList ⟨0, 0, 0⟩ ⟨0, 0, -1⟩
          [.leaf 1 ⟨⟨0, 0, -3⟩, ⟨0, 0, 0⟩, ⟨1, 1, 1⟩⟩] [] → tq > 0 → dq < 1.5 * 1.5 →
        tp ≤ tq := by
  apply (checkInteraction_global_min ⟨0, 0, 0⟩ ⟨0, 0, -1⟩
    [.leaf 1 ⟨⟨0, 0, -3⟩, ⟨0, 0, 0⟩, ⟨1, 1, 1⟩⟩]).1 1
  simp only [checkInteraction, findClosestList, findClosestObject, getPointInWorldSpace]
  norm_num

/-- C10: any selected node has closest-approach parameter strictly below the
initial best distance 10 and squared miss-distance below `1.5² = 2.25`, and if
no leaf qualifies under both bounds (positive `t` below 10, miss-distance
below the 1.5-unit interaction radius) then no `interact()` call is made. -/
theorem checkInteraction_bounds (cam dir : Vec3) (roots : List SceneNode) :
    (∀ i, checkInteraction cam dir roots = some i →
        ∃ tp dsq, (i, tp, dsq) ∈ leafDataList cam dir roots [] ∧
          0 < tp ∧ tp < 10 ∧ dsq < 1.5 * 1.5) ∧
      ((∀ e ∈ leafDataList cam dir roots [], ¬(0 < e.2.1 ∧ e.2.1 < 10 ∧ e.2.2 < 1.5 * 1.5)) →
        checkInteraction cam dir roots = none) := by
  constructor
  · intro i hsel
    unfold checkInteraction at hsel
    rw [findClosestList_eq_selScan] at hsel
    rcases selScan_provenance (leafDataList cam dir roots []) ⟨10, none⟩ with
      h | ⟨j, tp, dsq, hmem, h1, h2, h3, heq⟩
    · rw [h] at hsel; cases hsel
    · rw [heq] at hsel
      obtain rfl : j = i := Option.some.inj hsel
      exact ⟨tp, dsq, hmem, h1, h3, h2⟩
  · intro hnone
    unfold checkInteraction
    rw [findClosestList_eq_selScan]
    rcases selScan_provenance (leafDataList cam dir roots []) ⟨10, none⟩ with
      h | ⟨j, tp, dsq, hmem, h1, h2, h3, heq⟩
    · rw [h]
    · exact absurd ⟨h1, h3, h2⟩ (hnone (j, tp, dsq) hmem)

/-- C10 witness: with no scene objects at all, no leaf qualifies and no
interaction is triggered. -/
theorem checkInteraction_bounds_witness :
    checkInteraction ⟨0, 0, 0⟩ ⟨0, 0, -1⟩ [] = none := by
  apply (checkInteraction_bounds ⟨0, 0, 0⟩ ⟨0, 0, -1⟩ []).2
  intro e he
  rw [leafDataList] at he
  cases he

end
